import Mathlib

/-!
Verification development for the chai-aur-react repository.

The definitions below are shallow embeddings of the repository's widget
logic:

* `useCurrencyInfo` fetch-and-resolve logic (src/unnamed/part_000);
* the currency-converter `App` component state, its `swap` handler and its
  auto-conversion `useEffect` (src/unnamed/part_001);
* the `passwordGenerator` function (src/09_passwordGenerator/README.md);
* a reactive `Store` with cells, subscribers, derivations and cycle
  detection, modelled from the specification (spec.md sections 3, 4.1,
  4.2, 7) because no such store exists in the source tree.

JavaScript numbers are modelled as rationals (all values that occur in the
scenarios are exact in IEEE double and in ℚ), JS strings as Lean strings
(equivalently their character lists), JSON objects as association lists.
-/

/-! ## JS string model: the ASCII fragment of String.prototype.toLowerCase -/

/-- The 26 uppercase/lowercase ASCII pairs: the fragment of JS
`String.prototype.toLowerCase` exercised by currency codes. -/
def lowerPairs : List (Char × Char) :=
  [('A', 'a'), ('B', 'b'), ('C', 'c'), ('D', 'd'), ('E', 'e'), ('F', 'f'),
   ('G', 'g'), ('H', 'h'), ('I', 'i'), ('J', 'j'), ('K', 'k'), ('L', 'l'),
   ('M', 'm'), ('N', 'n'), ('O', 'o'), ('P', 'p'), ('Q', 'q'), ('R', 'r'),
   ('S', 's'), ('T', 't'), ('U', 'u'), ('V', 'v'), ('W', 'w'), ('X', 'x'),
   ('Y', 'y'), ('Z', 'z')]

/-- Lowercase one character (ASCII): `A`–`Z` map to `a`–`z`, everything else
is unchanged. -/
def jsCharToLower (c : Char) : Char :=
  ((lowerPairs.find? (fun p => p.1 == c)).map (fun p => p.2)).getD c

/-- JS `s.toLowerCase()` on the ASCII fragment: lowercase every character. -/
def jsToLower (s : String) : String :=
  ⟨s.data.map jsCharToLower⟩

/-! ## External fetcher: `useCurrencyInfo` (src/unnamed/part_000)

The hook fetches `.../currencies/{currency.toLowerCase()}.json`, parses it
as JSON, extracts `res[currency.toLowerCase()] || {}` and stores it with
`setData`; any fetch or parse error is caught and `setData({})` is called.
The network is modelled as a function from the (lowercased) currency code
in the URL to an outcome: a parsed JSON body (association list from base
code to a rates object) or a failure (network error, non-success status
whose body is not valid JSON, or malformed response). -/

/-- A rates object: lowercase currency code → rate, as in the API response. -/
abbrev RatesMap := List (String × Rat)

/-- JS property read `obj[k]` on an object modelled as an association list. -/
def lookupKey {α : Type} (obj : List (String × α)) (k : String) : Option α :=
  (obj.find? (fun p => p.1 == k)).map (fun p => p.2)

/-- Outcome of one network read in `useCurrencyInfo`: either a parsed JSON
body (`res`) or a failure caught by the `.catch` handler. -/
inductive JsFetchOutcome where
  | success (res : List (String × RatesMap))
  | failure
deriving DecidableEq

/-- The value written by one resolution of `useCurrencyInfo`'s effect for
`currency`: on success `res[currency.toLowerCase()] || {}`, on any caught
error `{}` (src/unnamed/part_000 lines 22–44). -/
def fetchResolve (endpoint : String → JsFetchOutcome) (currency : String) :
    RatesMap :=
  match endpoint (jsToLower currency) with
  | .success res => (lookupKey res (jsToLower currency)).getD []
  | .failure => []

/-- The effect in src/unnamed/part_000 has no cleanup and no staleness
check: every issued fetch's `.then`/`.catch` handler calls `setData` when
its response arrives. Given the currencies of the issued fetches listed in
the order their responses arrive, the `data` cell ends up holding the value
written by the last-arriving resolution (initial value `{}`). -/
def finalData (endpoint : String → JsFetchOutcome)
    (arrivalOrder : List String) : RatesMap :=
  arrivalOrder.foldl (fun _ c => fetchResolve endpoint c) []

/-! A concrete endpoint distinguishing "eur" and "gbp", used to exhibit the
race in src/unnamed/part_000. -/

/-- Endpoint whose "eur" body and "gbp" body hold different rates. -/
def raceEndpoint : String → JsFetchOutcome := fun k =>
  if k = "eur" then .success [("eur", [("usd", 1)])]
  else if k = "gbp" then .success [("gbp", [("usd", 2)])]
  else .failure

/-! ## Currency-converter App (src/unnamed/part_001) -/

/-- The `App` component's state: `useState` cells `amount`, `from`, `to_`,
`convertedAmount`, plus the `currencyInfo` rates object delivered by
`useCurrencyInfo(from)`. -/
structure AppState where
  amount : Rat
  from_ : String
  to_ : String
  convertedAmount : Rat
  currencyInfo : RatesMap
deriving DecidableEq

/-- JS truthiness of `currencyInfo[to]`: the property exists and is a
nonzero number (`undefined`, `0` are falsy). -/
def rateTruthy (info : RatesMap) (to_ : String) : Bool :=
  match lookupKey info to_ with
  | some r => r != 0
  | none => false

/-- The auto-conversion `useEffect` body (src/unnamed/part_001 lines
50–56): `if (currencyInfo[to]) setConvertedAmount(amount * currencyInfo[to])`. -/
def autoConvert (s : AppState) : AppState :=
  if rateTruthy s.currencyInfo s.to_ then
    { s with convertedAmount := s.amount * (lookupKey s.currencyInfo s.to_).getD 0 }
  else s

/-- The `swap` handler (src/unnamed/part_001 lines 34–39): four direct
`set` calls, each reading the pre-swap closure values:
`setFrom(to); setTo(from); setConvertedAmount(amount); setAmount(convertedAmount)`. -/
def swap (s : AppState) : AppState :=
  { s with
    from_ := s.to_
    to_ := s.from_
    convertedAmount := s.amount
    amount := s.convertedAmount }

/-- External events driving the `App` state. The auto-conversion effect has
dependency array `[amount, currencyInfo, to]`, so it re-runs exactly after
events that change one of those cells; `setFrom` alone does not re-run it
(a rates refetch later arrives as its own `ratesArrived` event). -/
inductive AppEvent where
  | setAmount (v : Rat)
  | setFrom (c : String)
  | setTo (c : String)
  | ratesArrived (m : RatesMap)
  | swapClick

/-- One step of the `App` update loop: apply the event's `set` calls, then
run the auto-conversion effect if one of its dependencies changed. -/
def applyEvent (s : AppState) : AppEvent → AppState
  | .setAmount v => autoConvert { s with amount := v }
  | .setFrom c => { s with from_ := c }
  | .setTo c => autoConvert { s with to_ := c }
  | .ratesArrived m => autoConvert { s with currencyInfo := m }
  | .swapClick => autoConvert (swap s)

/-! ## Password generator (src/09_passwordGenerator/README.md, section 5)

JS strings are modelled here as lists of characters (`pass` and `str` are
built by concatenation only). `Math.random()` returns a double in `[0, 1)`;
the stream of values consumed by the loop is modelled as a function from
the iteration index to a rational. -/

/-- The base pool: `"ABCDEFGHIJKLMNOPQRSTUVWXYZabcdefghijklmnopqrstuvwxyz"`. -/
def letterChars : List Char :=
  "ABCDEFGHIJKLMNOPQRSTUVWXYZabcdefghijklmnopqrstuvwxyz".data

/-- `"0123456789"`, appended when `numberAllowed`. -/
def digitChars : List Char := "0123456789".data

/-- The symbol pool appended when `charAllowed` (braces and backtick written
as character escapes). -/
def symbolChars : List Char := "!@#$%^&*-_+=[]\x7b\x7d~\x60".data

/-- The character pool `str` built at the top of `passwordGenerator`. -/
def passwordAlphabet (numberAllowed charAllowed : Bool) : List Char :=
  let str := letterChars
  let str := if numberAllowed then str ++ digitChars else str
  if charAllowed then str ++ symbolChars else str

/-- JS `str.charAt(i)`: a one-character string, or the empty string when
`i` is out of range. -/
def jsCharAt (s : List Char) (i : Int) : List Char :=
  if i < 0 then []
  else
    match s[i.toNat]? with
    | some c => [c]
    | none => []

/-- The `passwordGenerator` loop: `length` iterations, each appending
`str.charAt(Math.floor(Math.random() * str.length))` to `pass`. -/
def passwordGenerator (len : Nat) (numberAllowed charAllowed : Bool)
    (rand : Nat → Rat) : List Char :=
  let str := passwordAlphabet numberAllowed charAllowed
  (List.range len).foldl
    (fun pass i => pass ++ jsCharAt str (Int.floor (rand i * (str.length : Rat))))
    []

/-! ## Reactive store

Modelled from the spec: the repository has no store implementation — the
spec (sections 3, 4.1, 4.2, 7) generalizes the widgets' implicit
framework-managed state into an explicit `Store` with named cells,
subscribers, derivations, and synchronous cascading `set` with cycle
detection. The definitions in this section follow the spec's words. -/

/-- Modelled from the spec: a Derivation (spec.md section 3) — a function
plus declared input cell names and one output cell name. -/
structure Deriv (V : Type) where
  inputs : List String
  output : String
  fn : (String → Option V) → V

/-- Modelled from the spec: a subscriber registered with
`subscribe(dependencyNames, callback)` (spec.md section 4.1); the callback
is identified by a numeric id so notifications can be logged. -/
structure Subscriber where
  deps : List String
  id : Nat

/-- Modelled from the spec: a Store (spec.md section 3) — an ordered mapping
from cell name to value, plus registered derivations and subscribers. -/
structure Store (V : Type) where
  cells : List (String × V)
  derivs : List (Deriv V)
  subs : List Subscriber

/-- Modelled from the spec: the error taxonomy that may escape the core
(spec.md section 7). -/
inductive StoreError where
  | cycleError
  | unknownCellError
deriving DecidableEq

/-- A notification log: one entry `(cellName, subscriberId)` per callback
invocation, in invocation order. -/
abbrev NotifyLog := List (String × Nat)

/-- Current value of a named cell. -/
def Store.getCell {V : Type} (st : Store V) (name : String) : Option V :=
  lookupKey st.cells name

/-- Overwrite the value of an existing cell, keeping cell order. -/
def writeCell {V : Type} (cells : List (String × V)) (name : String) (v : V) :
    List (String × V) :=
  cells.map (fun c => if c.1 == name then (name, v) else c)

mutual

/-- Modelled from the spec: `set(name, value)` (spec.md section 4.1) —
overwrite the cell, synchronously notify every subscriber whose declared
dependency set includes `name`, then trigger matching derivations, which
cascade through nested `set` calls; fail with `CycleError` when the
notification chain revisits a cell already being updated in the current
synchronous pass (`stack`). -/
def setRec {V : Type} : Nat → List String → Store V → String → V →
    Except StoreError (Store V × NotifyLog)
  | 0, _, _, _, _ => .error .cycleError
  | fuel + 1, stack, st, name, v =>
    if name ∈ stack then .error .cycleError
    else
      let st1 : Store V := { st with cells := writeCell st.cells name v }
      let log1 : NotifyLog :=
        (st1.subs.filter (fun s => name ∈ s.deps)).map (fun s => (name, s.id))
      match notifyDerivs fuel (name :: stack) st1 st1.derivs name with
      | .error e => .error e
      | .ok (st2, log2) => .ok (st2, log1 ++ log2)
termination_by fuel _ _ _ _ => (fuel, 0)

/-- Modelled from the spec: run, in registration order, every derivation
whose declared inputs include the changed cell `name`; each recomputation
writes its output through a nested `set`. -/
def notifyDerivs {V : Type} : Nat → List String → Store V → List (Deriv V) → String →
    Except StoreError (Store V × NotifyLog)
  | _, _, st, [], _ => .ok (st, [])
  | fuel, stack, st, d :: ds, name =>
    if name ∈ d.inputs then
      match setRec fuel stack st d.output (d.fn st.getCell) with
      | .error e => .error e
      | .ok (st1, log1) =>
        match notifyDerivs fuel stack st1 ds name with
        | .error e => .error e
        | .ok (st2, log2) => .ok (st2, log1 ++ log2)
    else notifyDerivs fuel stack st ds name
termination_by fuel _ _ ds _ => (fuel, ds.length + 1)

end

/-- Modelled from the spec: the public `set` entry point. The fuel bounds
the depth of the synchronous pass; a chain deeper than the number of cells
necessarily revisits one, so the bound never cuts an acyclic cascade
short. -/
def Store.set {V : Type} (st : Store V) (name : String) (v : V) :
    Except StoreError (Store V × NotifyLog) :=
  setRec (st.cells.length + 1) [] st name v

/-- Modelled from the spec: `register(store, inputNames, outputName, fn)`
(spec.md section 4.2) — record the derivation (subscribing it to future
input changes), then immediately compute `fn` once against current values
and write the result through `set`. -/
def Store.register {V : Type} (st : Store V) (inputs : List String)
    (output : String) (fn : (String → Option V) → V) :
    Except StoreError (Store V × NotifyLog) :=
  let st1 : Store V := { st with derivs := st.derivs ++ [⟨inputs, output, fn⟩] }
  st1.set output (fn st1.getCell)

/-- Run a finite sequence of `set` calls, concatenating the notification
logs in order. -/
def runSets {V : Type} (st : Store V) : List (String × V) →
    Except StoreError (Store V × NotifyLog)
  | [] => .ok (st, [])
  | (n, v) :: rest =>
    match st.set n v with
    | .error e => .error e
    | .ok (st1, log1) =>
      match runSets st1 rest with
      | .error e => .error e
      | .ok (st2, log2) => .ok (st2, log1 ++ log2)

/-- The specification's notification discipline stated directly from its
words (spec.md sections 4.1 and 8): given the cells changed during a run —
in the order they were set, cascaded derivation writes included — one
notification per changed cell per subscriber whose declared dependency set
contains that cell, subscribers in registration order, never batched. -/
def notificationsFor (subs : List Subscriber) (changes : List String) :
    NotifyLog :=
  changes.flatMap
    (fun n => (subs.filter (fun s => n ∈ s.deps)).map (fun s => (n, s.id)))

/-! ## Lowercasing lemmas -/

/-- No lowercase image of `lowerPairs` is itself an uppercase key. -/
theorem lowerPairs_value_not_key :
    ∀ p ∈ lowerPairs, lowerPairs.find? (fun q => q.1 == p.2) = none := by decide

theorem jsCharToLower_idem (c : Char) :
    jsCharToLower (jsCharToLower c) = jsCharToLower c := by
  unfold jsCharToLower
  cases h : lowerPairs.find? (fun p => p.1 == c) with
  | none => simp [h]
  | some p => simp [lowerPairs_value_not_key p (List.mem_of_find?_eq_some h)]

theorem map_jsCharToLower_idem (l : List Char) :
    (l.map jsCharToLower).map jsCharToLower = l.map jsCharToLower := by
  induction l with
  | nil => rfl
  | cons c l ih => simp [ih, jsCharToLower_idem]

theorem jsToLower_idem (s : String) : jsToLower (jsToLower s) = jsToLower s :=
  congrArg String.mk (map_jsCharToLower_idem s.data)

/-! ## Claims about the external fetcher (src/unnamed/part_000) -/

/-- C10: `useCurrencyInfo` lowercases the currency key both in the request
URL and when extracting the rates object, so for the same endpoint
behaviour, fetching for `k` and for `lowercase(k)` write identical values
to the `data` cell. -/
theorem fetch_key_case_insensitive (endpoint : String → JsFetchOutcome)
    (k : String) :
    fetchResolve endpoint (jsToLower k) = fetchResolve endpoint k := by
  unfold fetchResolve
  rw [jsToLower_idem]

/-- C2: whenever the network read fails (rejected fetch / unparsable
response, caught by `.catch`) or the parsed body lacks the currency's
rates object (`res[...] || {}`), the resolution writes the empty mapping
to the `data` cell; `fetchResolve` is total, so no exception reaches the
caller. -/
theorem fetch_failure_fallback (endpoint : String → JsFetchOutcome)
    (k : String) :
    (endpoint (jsToLower k) = .failure → fetchResolve endpoint k = []) ∧
    ∀ res, endpoint (jsToLower k) = .success res →
      lookupKey res (jsToLower k) = none → fetchResolve endpoint k = [] := by
  constructor
  · intro h
    unfold fetchResolve
    rw [h]
  · intro res h hn
    unfold fetchResolve
    rw [h]
    simp [hn]

/-- Witness for C2 at Scenario B: an endpoint answering HTTP 500 (a
failure) for `"xyz"` leaves the rates cell holding the empty mapping. -/
theorem fetch_failure_fallback_witness :
    fetchResolve (fun _ => .failure) "xyz" = [] :=
  (fetch_failure_fallback (fun _ => .failure) "xyz").1 rfl

/-- C1 (counterexample): `fetchFor("eur")` issued before `fetchFor("gbp")`
on the same `data` cell, with the "eur" response arriving after the "gbp"
one: the cell's final value is "eur"'s result and differs from "gbp"'s
result — the most-recently-issued task does not win, contradicting the
claim. -/
theorem superseded_fetch_counterexample :
    finalData raceEndpoint ["gbp", "eur"] = fetchResolve raceEndpoint "eur" ∧
    finalData raceEndpoint ["gbp", "eur"] ≠ fetchResolve raceEndpoint "gbp" := by
  constructor
  · rfl
  · decide

/-- C1 (amended): src/unnamed/part_000 registers no cleanup and no
"still current" check, so every issued fetch's handler writes the cell
when its response arrives: the cell's final value is the resolution value
of the fetch whose response arrives last, regardless of issue order. -/
theorem fetch_last_arrival_wins (endpoint : String → JsFetchOutcome)
    (earlierArrivals : List String) (lastArrival : String) :
    finalData endpoint (earlierArrivals ++ [lastArrival]) =
      fetchResolve endpoint lastArrival := by
  unfold finalData
  rw [List.foldl_append]
  rfl

/-! ## Claims about the currency-converter App (src/unnamed/part_001) -/

/-- C3 (Scenario A): with `amount = 1`, rates `{"inr": 83.5}` and
`to = "inr"`, setting `amount` to `10` makes the auto-conversion effect
write `convertedAmount = 835`. -/
theorem scenario_a_conversion :
    (applyEvent ⟨1, "usd", "inr", 0, [("inr", 83.5)]⟩
      (.setAmount 10)).convertedAmount = 835 := by
  simp [applyEvent, autoConvert, rateTruthy, lookupKey, List.find?]
  norm_num

/-- C4: when the rates object has no entry for the target currency (the
"unready" state), the `if (currencyInfo[to])` guard makes the effect skip
recomputation (the state is unchanged), and a `set` outside the effect's
dependencies (`setFrom`) leaves `convertedAmount` identical to its prior
value; in particular no NaN/undefined is ever written. -/
theorem guarded_derivation (s : AppState) (c : String)
    (h : lookupKey s.currencyInfo s.to_ = none) :
    autoConvert s = s ∧
    (applyEvent s (.setFrom c)).convertedAmount = s.convertedAmount := by
  have hg : rateTruthy s.currencyInfo s.to_ = false := by
    unfold rateTruthy
    rw [h]
  exact ⟨by unfold autoConvert; rw [hg]; simp, rfl⟩

/-- Witness for C4: a state whose rates lack `"inr"`. -/
theorem guarded_derivation_witness :
    lookupKey ([("usd", 83.5)] : RatesMap) "inr" = none ∧
    (autoConvert ⟨5, "usd", "inr", 7, [("usd", 83.5)]⟩ =
        ⟨5, "usd", "inr", 7, [("usd", 83.5)]⟩ ∧
      (applyEvent ⟨5, "usd", "inr", 7, [("usd", 83.5)]⟩
          (.setFrom "eur")).convertedAmount =
        (⟨5, "usd", "inr", 7, [("usd", 83.5)]⟩ : AppState).convertedAmount) :=
  ⟨by decide, guarded_derivation ⟨5, "usd", "inr", 7, [("usd", 83.5)]⟩ "eur"
    (by decide)⟩

/-- C6: the `swap` handler is a direct exchange computed from the pre-swap
closure values — `amount` and `convertedAmount` trade places and `from`
and `to` trade places — it never reads the rates mapping (the result is
uniform in `currencyInfo`), and immediately after the four direct sets the
converted amount need not equal `amount * rates[to]` (concrete instance in
the third conjunct). -/
theorem swap_direct_exchange :
    (∀ s : AppState,
      swap s = ⟨s.convertedAmount, s.to_, s.from_, s.amount, s.currencyInfo⟩) ∧
    (∀ (s : AppState) (m : RatesMap),
      swap { s with currencyInfo := m } = { swap s with currencyInfo := m }) ∧
    (swap ⟨10, "usd", "inr", 3, [("inr", 83.5), ("usd", 1)]⟩).convertedAmount ≠
      (swap ⟨10, "usd", "inr", 3, [("inr", 83.5), ("usd", 1)]⟩).amount *
        (lookupKey
          (swap ⟨10, "usd", "inr", 3, [("inr", 83.5), ("usd", 1)]⟩).currencyInfo
          (swap ⟨10, "usd", "inr", 3, [("inr", 83.5), ("usd", 1)]⟩).to_).getD 0 := by
  refine ⟨fun s => rfl, fun s m => rfl, ?_⟩
  simp [swap, lookupKey, List.find?]

/-! ## Password generator lemmas and claim C5 -/

/-- With `0 ≤ q < 1`, `str.charAt(Math.floor(q * str.length))` is a
one-character string drawn from `str`. -/
theorem jsCharAt_floor (s : List Char) (q : Rat) (hs : s ≠ [])
    (h0 : 0 ≤ q) (h1 : q < 1) :
    ∃ c ∈ s, jsCharAt s (Int.floor (q * (s.length : Rat))) = [c] := by
  have hlen : 0 < s.length := List.length_pos.mpr hs
  have hlenQ : (0 : Rat) < (s.length : Rat) := by exact_mod_cast hlen
  have hfl0 : 0 ≤ Int.floor (q * (s.length : Rat)) :=
    Int.floor_nonneg.mpr (mul_nonneg h0 (le_of_lt hlenQ))
  have hlt : q * (s.length : Rat) < (s.length : Rat) := by
    calc q * (s.length : Rat) < 1 * (s.length : Rat) :=
          mul_lt_mul_of_pos_right h1 hlenQ
    _ = (s.length : Rat) := one_mul _
  have hfl : Int.floor (q * (s.length : Rat)) < (s.length : Int) :=
    Int.floor_lt.mpr (by exact_mod_cast hlt)
  have hidx : (Int.floor (q * (s.length : Rat))).toNat < s.length := by omega
  refine ⟨s.get ⟨(Int.floor (q * (s.length : Rat))).toNat, hidx⟩,
    List.get_mem s _ hidx, ?_⟩
  unfold jsCharAt
  rw [if_neg (not_lt.mpr hfl0), List.getElem?_eq_getElem hidx]
  rfl

/-- The generation loop appends one in-alphabet character per iteration. -/
theorem passwordGenerator_foldl_spec (s : List Char) (rand : Nat → Rat)
    (hs : s ≠ []) (hr : ∀ i, 0 ≤ rand i ∧ rand i < 1) (l : List Nat) :
    ∀ acc : List Char,
      ((l.foldl
          (fun pass i => pass ++ jsCharAt s (Int.floor (rand i * (s.length : Rat))))
          acc).length = acc.length + l.length ∧
        ∀ c ∈ l.foldl
            (fun pass i => pass ++ jsCharAt s (Int.floor (rand i * (s.length : Rat))))
            acc,
          c ∈ acc ∨ c ∈ s) := by
  induction l with
  | nil => exact fun acc => ⟨by simp, fun c hc => Or.inl hc⟩
  | cons i l ih =>
    intro acc
    obtain ⟨c, hcs, hc⟩ := jsCharAt_floor s (rand i) hs (hr i).1 (hr i).2
    rw [List.foldl_cons, hc]
    obtain ⟨ihlen, ihmem⟩ := ih (acc ++ [c])
    refine ⟨by rw [ihlen]; simp; omega, ?_⟩
    intro x hx
    rcases ihmem x hx with hx' | hx'
    · rcases List.mem_append.mp hx' with h | h
      · exact Or.inl h
      · rcases List.mem_singleton.mp h with rfl
        exact Or.inr hcs
    · exact Or.inr hx'

/-- C5 (Scenario C): with `length = 6`, `numberAllowed = false`,
`charAllowed = false`, every password produced by `passwordGenerator` —
whatever values the `Math.random()` stream takes in `[0, 1)` — has exactly
6 characters, all drawn from the 52-letter alphabet. -/
theorem password_scenario_c (rand : Nat → Rat)
    (hr : ∀ i, 0 ≤ rand i ∧ rand i < 1) :
    (passwordGenerator 6 false false rand).length = 6 ∧
    ∀ c ∈ passwordGenerator 6 false false rand, c ∈ letterChars := by
  have hs : passwordAlphabet false false ≠ [] := by decide
  have h := passwordGenerator_foldl_spec (passwordAlphabet false false) rand hs hr
    (List.range 6) []
  simp only [passwordGenerator]
  constructor
  · rw [h.1]
    simp
  · intro c hc
    rcases h.2 c hc with h' | h'
    · simp at h'
    · exact h'

/-- Witness for C5: the all-zero random stream yields a 6-letter password. -/
theorem password_scenario_c_witness :
    (passwordGenerator 6 false false (fun _ => 0)).length = 6 ∧
    ∀ c ∈ passwordGenerator 6 false false (fun _ => 0), c ∈ letterChars :=
  password_scenario_c (fun _ => 0) (fun _ => ⟨le_refl 0, by norm_num⟩)

/-! ## Store lemmas -/

/-- Unfolding equation for `setRec` at positive fuel. -/
theorem setRec_succ {V : Type} (fuel : Nat) (stack : List String)
    (st : Store V) (name : String) (v : V) :
    setRec (fuel + 1) stack st name v =
      if name ∈ stack then .error .cycleError
      else
        match notifyDerivs fuel (name :: stack)
            { st with cells := writeCell st.cells name v } st.derivs name with
        | .error e => .error e
        | .ok (st2, log2) =>
          .ok (st2,
            ((st.subs.filter (fun s => name ∈ s.deps)).map (fun s => (name, s.id)))
              ++ log2) := by
  rw [setRec]

/-- `notifyDerivs` on an empty derivation list. -/
theorem notifyDerivs_nil {V : Type} (fuel : Nat) (stack : List String)
    (st : Store V) (name : String) :
    notifyDerivs fuel stack st [] name = .ok (st, []) := by
  rw [notifyDerivs]

/-- Unfolding equation for `notifyDerivs` on a cons. -/
theorem notifyDerivs_cons {V : Type} (fuel : Nat) (stack : List String)
    (st : Store V) (d : Deriv V) (ds : List (Deriv V)) (name : String) :
    notifyDerivs fuel stack st (d :: ds) name =
      if name ∈ d.inputs then
        match setRec fuel stack st d.output (d.fn st.getCell) with
        | .error e => .error e
        | .ok (st1, log1) =>
          match notifyDerivs fuel stack st1 ds name with
          | .error e => .error e
          | .ok (st2, log2) => .ok (st2, log1 ++ log2)
      else notifyDerivs fuel stack st ds name := by
  rw [notifyDerivs]

/-- Overwriting a cell does not change the number of cells. -/
theorem writeCell_length {V : Type} (cells : List (String × V)) (name : String)
    (v : V) : (writeCell cells name v).length = cells.length := by
  unfold writeCell
  rw [List.length_map]

/-- Overwriting an existing cell makes it hold the new value. -/
theorem lookup_writeCell_self {V : Type} (cells : List (String × V))
    (name : String) (v w : V) (h : lookupKey cells name = some w) :
    lookupKey (writeCell cells name v) name = some v := by
  induction cells with
  | nil => simp [lookupKey] at h
  | cons c cs ih =>
    rcases c with ⟨cn, cv⟩
    by_cases hc : cn = name
    · subst hc
      simp [lookupKey, writeCell, List.find?]
    · have hcb : (cn == name) = false := by simpa using hc
      have h' : lookupKey cs name = some w := by
        simpa [lookupKey, List.find?, hcb] using h
      simpa [lookupKey, writeCell, List.find?, hcb] using ih h'

/-- Overwriting one cell leaves every other cell's value unchanged. -/
theorem lookup_writeCell_ne {V : Type} (cells : List (String × V))
    (name other : String) (v : V) (h : name ≠ other) :
    lookupKey (writeCell cells name v) other = lookupKey cells other := by
  induction cells with
  | nil => rfl
  | cons c cs ih =>
    rcases c with ⟨cn, cv⟩
    by_cases hc : cn = name
    · subst hc
      have hno : (cn == other) = false := by simpa using h
      simpa [lookupKey, writeCell, List.find?, hno] using ih
    · have hcb : (cn == name) = false := by simpa using hc
      by_cases ho : cn = other
      · subst ho
        simp [lookupKey, writeCell, List.find?, hcb]
      · have hob : (cn == other) = false := by simpa using ho
        simpa [lookupKey, writeCell, List.find?, hcb, hob] using ih

/-- A `set` on a store with no registered derivations: overwrite the cell
and notify the matching subscribers, once each, in registration order. -/
theorem set_no_derivs {V : Type} (st : Store V) (hd : st.derivs = [])
    (n : String) (v : V) :
    st.set n v = .ok ({ st with cells := writeCell st.cells n v },
      (st.subs.filter (fun s => n ∈ s.deps)).map (fun s => (n, s.id))) := by
  unfold Store.set
  rw [setRec_succ, hd]
  simp [notifyDerivs_nil]

/-- C7 (Scenario D): in a store holding its two (or more) cells whose two
registered derivations each write the other's declared input, any `set`
that triggers them fails with `CycleError` — the synchronous notification
pass revisits a cell already being updated — rather than recursing
indefinitely. Modelled from the spec (sections 4.1, 7, 8). -/
theorem cycle_error_on_mutual_derivations {V : Type} (st : Store V)
    (a b : String) (f g : (String → Option V) → V) (v : V)
    (hab : a ≠ b) (hlen : 2 ≤ st.cells.length)
    (hd : st.derivs = [⟨[b], a, f⟩, ⟨[a], b, g⟩]) :
    st.set a v = .error .cycleError ∧ st.set b v = .error .cycleError := by
  have hba : b ≠ a := Ne.symm hab
  obtain ⟨k, hk⟩ : ∃ k, st.cells.length + 1 = k + 1 + 1 + 1 :=
    ⟨st.cells.length - 2, by omega⟩
  constructor
  · unfold Store.set
    rw [hk]
    simp [setRec_succ, notifyDerivs_cons, notifyDerivs_nil, hd, hab, hba]
  · unfold Store.set
    rw [hk]
    simp [setRec_succ, notifyDerivs_cons, notifyDerivs_nil, hd, hab, hba]

/-- Witness for C7: a two-cell store with mutually-triggering derivations. -/
theorem cycle_error_on_mutual_derivations_witness :
    (⟨[("a", (0 : Rat)), ("b", 0)],
        [⟨["b"], "a", fun _ => 1⟩, ⟨["a"], "b", fun _ => 2⟩], []⟩ :
      Store Rat).set "a" 5 = .error .cycleError ∧
    (⟨[("a", (0 : Rat)), ("b", 0)],
        [⟨["b"], "a", fun _ => 1⟩, ⟨["a"], "b", fun _ => 2⟩], []⟩ :
      Store Rat).set "b" 5 = .error .cycleError :=
  cycle_error_on_mutual_derivations _ "a" "b" _ _ 5 (by decide) (by decide) rfl

/-- One notification group per changed cell: `notificationsFor` splits off
the head change's complete subscriber group. -/
theorem notificationsFor_cons (subs : List Subscriber) (n : String)
    (changes : List String) :
    notificationsFor subs (n :: changes) =
      ((subs.filter (fun s => n ∈ s.deps)).map (fun s => (n, s.id))) ++
        notificationsFor subs changes := by
  simp [notificationsFor]

/-- `notificationsFor` distributes over concatenation of change lists. -/
theorem notificationsFor_append (subs : List Subscriber)
    (c1 c2 : List String) :
    notificationsFor subs (c1 ++ c2) =
      notificationsFor subs c1 ++ notificationsFor subs c2 := by
  simp [notificationsFor]

/-- Unfolding equation for `setRec` at any nonzero fuel. -/
theorem setRec_pos {V : Type} (fuel : Nat) (stack : List String)
    (st : Store V) (name : String) (v : V) (hf : fuel ≠ 0) :
    setRec fuel stack st name v =
      if name ∈ stack then .error .cycleError
      else
        match notifyDerivs (fuel - 1) (name :: stack)
            { st with cells := writeCell st.cells name v } st.derivs name with
        | .error e => .error e
        | .ok (st2, log2) =>
          .ok (st2,
            ((st.subs.filter (fun s => name ∈ s.deps)).map (fun s => (name, s.id)))
              ++ log2) := by
  obtain ⟨m, rfl⟩ := Nat.exists_eq_succ_of_ne_zero hf
  simpa using setRec_succ m stack st name v

/-- Joint induction over the engine: a successful synchronous pass
preserves the subscriber and derivation lists, and its notification log is
exactly `notificationsFor` of the cells it changed, in the order they were
set — for `setRec`, the cell set first, then the cells its derivation
cascade set. -/
theorem setRec_notifyDerivs_log (fuel : Nat) :
    (∀ (V : Type) (stack : List String) (st : Store V) (name : String)
        (v : V) (st2 : Store V) (log : NotifyLog),
      setRec fuel stack st name v = .ok (st2, log) →
        st2.subs = st.subs ∧ st2.derivs = st.derivs ∧
        ∃ rest, log = notificationsFor st.subs (name :: rest)) ∧
    (∀ (V : Type) (stack : List String) (st : Store V) (ds : List (Deriv V))
        (name : String) (st2 : Store V) (log : NotifyLog),
      notifyDerivs fuel stack st ds name = .ok (st2, log) →
        st2.subs = st.subs ∧ st2.derivs = st.derivs ∧
        ∃ changes, log = notificationsFor st.subs changes) := by
  induction fuel with
  | zero =>
    constructor
    · intro V stack st name v st2 log h
      rw [setRec] at h
      exact absurd h (by simp)
    · intro V stack st ds name st2 log h
      induction ds generalizing st st2 log with
      | nil =>
        rw [notifyDerivs_nil] at h
        simp only [Except.ok.injEq, Prod.mk.injEq] at h
        obtain ⟨rfl, rfl⟩ := h
        exact ⟨rfl, rfl, [], rfl⟩
      | cons d ds ihds =>
        rw [notifyDerivs_cons] at h
        by_cases hmem : name ∈ d.inputs
        · rw [if_pos hmem, setRec] at h
          exact absurd h (by simp)
        · rw [if_neg hmem] at h
          exact ihds st st2 log h
  | succ fuel ihf =>
    have hset : ∀ (V : Type) (stack : List String) (st : Store V)
        (name : String) (v : V) (st2 : Store V) (log : NotifyLog),
        setRec (fuel + 1) stack st name v = .ok (st2, log) →
          st2.subs = st.subs ∧ st2.derivs = st.derivs ∧
          ∃ rest, log = notificationsFor st.subs (name :: rest) := by
      intro V stack st name v st2 log h
      rw [setRec_succ] at h
      by_cases hstk : name ∈ stack
      · rw [if_pos hstk] at h
        exact absurd h (by simp)
      · rw [if_neg hstk] at h
        cases hnd : notifyDerivs fuel (name :: stack)
            { st with cells := writeCell st.cells name v } st.derivs name with
        | error e =>
          rw [hnd] at h
          exact absurd h (by simp)
        | ok r =>
          obtain ⟨stB, logB⟩ := r
          rw [hnd] at h
          simp only [Except.ok.injEq, Prod.mk.injEq] at h
          obtain ⟨rfl, rfl⟩ := h
          obtain ⟨hsubs, hderivs, changes2, hlog2⟩ :=
            ihf.2 V (name :: stack) _ st.derivs name stB logB hnd
          refine ⟨hsubs, hderivs, changes2, ?_⟩
          rw [notificationsFor_cons, hlog2]
    refine ⟨hset, ?_⟩
    intro V stack st ds name st2 log h
    induction ds generalizing st st2 log with
    | nil =>
      rw [notifyDerivs_nil] at h
      simp only [Except.ok.injEq, Prod.mk.injEq] at h
      obtain ⟨rfl, rfl⟩ := h
      exact ⟨rfl, rfl, [], rfl⟩
    | cons d ds ihds =>
      rw [notifyDerivs_cons] at h
      by_cases hmem : name ∈ d.inputs
      · rw [if_pos hmem] at h
        cases hsr : setRec (fuel + 1) stack st d.output (d.fn st.getCell) with
        | error e =>
          rw [hsr] at h
          exact absurd h (by simp)
        | ok r =>
          obtain ⟨stB, logB⟩ := r
          cases hnd : notifyDerivs (fuel + 1) stack stB ds name with
          | error e =>
            simp [hsr, hnd] at h
          | ok r2 =>
            obtain ⟨stC, logC⟩ := r2
            simp only [hsr, hnd, Except.ok.injEq, Prod.mk.injEq] at h
            obtain ⟨rfl, rfl⟩ := h
            obtain ⟨hs1, hd1, rest1, hl1⟩ :=
              hset V stack st d.output (d.fn st.getCell) stB logB hsr
            obtain ⟨hs2, hd2, changes2, hl2⟩ := ihds stB stC logC hnd
            refine ⟨hs2.trans hs1, hd2.trans hd1,
              (d.output :: rest1) ++ changes2, ?_⟩
            rw [notificationsFor_append, hl1, hl2, hs1]
      · rw [if_neg hmem] at h
        exact ihds st st2 log h

/-- A successful top-level `set` preserves subscribers and derivations, and
its log is `notificationsFor` of the changed cells, starting with the cell
set and continuing with its cascade, in write order. -/
theorem set_log_decomposition {V : Type} (st : Store V) (name : String)
    (v : V) (st2 : Store V) (log : NotifyLog)
    (h : st.set name v = .ok (st2, log)) :
    st2.subs = st.subs ∧ st2.derivs = st.derivs ∧
    ∃ rest, log = notificationsFor st.subs (name :: rest) :=
  (setRec_notifyDerivs_log (st.cells.length + 1)).1 V [] st name v st2 log h

/-- C8: for every finite sequence of `set` calls that does not form a
cycle (the run succeeds rather than failing with `CycleError`), on any
store — registered derivations included — the notification log decomposes
as exactly one complete group of notifications per cell-change: each cell
changed during the run, in the order the cells were set (each issued set
first, then the cells its derivation cascade set, then the next issued
set), contributes one notification per subscriber whose declared
dependency set contains it, in registration order — never batched into a
single snapshot. Modelled from the spec (sections 4.1, 8). -/
theorem subscribers_notified_once_per_change {V : Type} (st : Store V)
    (sets : List (String × V)) (st2 : Store V) (log : NotifyLog)
    (hrun : runSets st sets = .ok (st2, log)) :
    ∃ changes : List (List String),
      List.Forall₂ (fun (p : String × V) (c : List String) =>
        ∃ rest, c = p.1 :: rest) sets changes ∧
      log = notificationsFor st.subs changes.flatten := by
  induction sets generalizing st log with
  | nil =>
    rw [runSets] at hrun
    simp only [Except.ok.injEq, Prod.mk.injEq] at hrun
    obtain ⟨rfl, rfl⟩ := hrun
    exact ⟨[], List.Forall₂.nil, rfl⟩
  | cons p rest ih =>
    rcases p with ⟨n, v⟩
    rw [runSets] at hrun
    cases hset : st.set n v with
    | error e =>
      simp [hset] at hrun
    | ok r =>
      obtain ⟨stB, logB⟩ := r
      cases hrest : runSets stB rest with
      | error e =>
        simp [hset, hrest] at hrun
      | ok r2 =>
        obtain ⟨stC, logC⟩ := r2
        simp only [hset, hrest, Except.ok.injEq, Prod.mk.injEq] at hrun
        obtain ⟨rfl, rfl⟩ := hrun
        obtain ⟨hsubs, _, rest1, hlogB⟩ :=
          set_log_decomposition st n v stB logB hset
        obtain ⟨changes2, hfa, hlogC⟩ := ih stB logC hrest
        refine ⟨(n :: rest1) :: changes2,
          List.Forall₂.cons ⟨rest1, rfl⟩ hfa, ?_⟩
        rw [List.flatten_cons, notificationsFor_append, hlogB, hlogC, hsubs]

/-- Witness for C8: a store with a derivation `b := a + 1` and three
subscribers; `set "a" 5` cascades into a write of `b`, and the log holds
one complete group per changed cell, in write order. -/
theorem subscribers_notified_once_per_change_witness :
    ∃ changes : List (List String),
      List.Forall₂ (fun (p : String × Rat) (c : List String) =>
        ∃ rest, c = p.1 :: rest) [("a", (5 : Rat))] changes ∧
      ([("a", 0), ("a", 2), ("b", 1), ("b", 2)] : NotifyLog) =
        notificationsFor [⟨["a"], 0⟩, ⟨["b"], 1⟩, ⟨["a", "b"], 2⟩]
          changes.flatten := by
  have hrun : runSets (⟨[("a", (0 : Rat)), ("b", 0)],
      [⟨["a"], "b", fun g => (g "a").getD 0 + 1⟩],
      [⟨["a"], 0⟩, ⟨["b"], 1⟩, ⟨["a", "b"], 2⟩]⟩ : Store Rat)
      [("a", 5)] =
      .ok (⟨[("a", 5), ("b", 6)],
        [⟨["a"], "b", fun g => (g "a").getD 0 + 1⟩],
        [⟨["a"], 0⟩, ⟨["b"], 1⟩, ⟨["a", "b"], 2⟩]⟩,
        [("a", 0), ("a", 2), ("b", 1), ("b", 2)]) := by
    norm_num [runSets, Store.set, setRec_pos, notifyDerivs_cons,
      notifyDerivs_nil, writeCell, lookupKey, Store.getCell, List.find?]
    rfl
  exact subscribers_notified_once_per_change _ _ _ _ hrun

/-- Changing only the `derivs` field does not change cell reads. -/
theorem getCell_update_derivs {V : Type} (st : Store V) (ds : List (Deriv V)) :
    Store.getCell { st with derivs := ds } = Store.getCell st := rfl

/-- C9: registering a derivation on a store with no prior derivations
immediately evaluates `fn` once against the current cell values and writes
the result to the output cell, and a subsequent `set` of any declared
input re-evaluates `fn` against the post-write values and stores the new
result in the output cell. Modelled from the spec (section 4.2). -/
theorem register_immediate_then_reactive {V : Type} (st : Store V)
    (inputs : List String) (out : String) (fn : (String → Option V) → V)
    (w : V) (hd : st.derivs = []) (hout : out ∉ inputs)
    (hcell : lookupKey st.cells out = some w) :
    (st.register inputs out fn).map (fun r => r.1.getCell out) =
      .ok (some (fn st.getCell)) ∧
    ∀ (i : String) (v : V), i ∈ inputs → i ≠ out →
      ((st.register inputs out fn).bind (fun r => r.1.set i v)).map
          (fun p => p.1.getCell out) =
        .ok (some (fn (fun n =>
          lookupKey (writeCell (writeCell st.cells out (fn st.getCell)) i v) n))) := by
  have hreg : st.register inputs out fn =
      .ok ({ st with
              derivs := [⟨inputs, out, fn⟩]
              cells := writeCell st.cells out (fn st.getCell) },
        (st.subs.filter (fun s => out ∈ s.deps)).map (fun s => (out, s.id))) := by
    simp only [Store.register, Store.set, hd, List.nil_append]
    rw [setRec_succ]
    simp [hout, notifyDerivs_cons, notifyDerivs_nil, getCell_update_derivs]
  have hget1 : Store.getCell
      { st with
        derivs := [⟨inputs, out, fn⟩]
        cells := writeCell st.cells out (fn st.getCell) } out =
      some (fn st.getCell) :=
    lookup_writeCell_self st.cells out (fn st.getCell) w hcell
  obtain ⟨m, hm⟩ : ∃ m, st.cells.length = m + 1 := by
    cases hc : st.cells with
    | nil =>
      rw [hc] at hcell
      simp [lookupKey] at hcell
    | cons c cs => exact ⟨cs.length, rfl⟩
  constructor
  · rw [hreg]
    simp [Except.map, hget1]
  · intro i v hi hne
    have hoi : out ≠ i := Ne.symm hne
    rw [hreg]
    simp only [Except.bind]
    have hw2 : lookupKey (writeCell (writeCell st.cells out (fn st.getCell)) i v)
        out = some (fn st.getCell) := by
      rw [lookup_writeCell_ne _ i out v hne]
      exact lookup_writeCell_self st.cells out (fn st.getCell) w hcell
    have hClen : (writeCell st.cells out (fn st.getCell)).length = m + 1 := by
      rw [writeCell_length, hm]
    simp only [Store.set]
    rw [setRec_succ]
    simp only [List.not_mem_nil, if_false, hClen]
    simp [hi, hoi, hout, notifyDerivs_cons, notifyDerivs_nil, setRec_succ,
      Except.map]
    exact lookup_writeCell_self _ out _ (fn st.getCell) hw2

/-- Witness for C9: registering `out := in + 1` on a two-cell store writes
`1` immediately; setting `in := 5` afterwards recomputes `out = 6`. -/
theorem register_immediate_then_reactive_witness :
    ((⟨[("out", (0 : Rat)), ("in", 0)], [], []⟩ : Store Rat).register ["in"]
        "out" (fun g => (g "in").getD 0 + 1)).map
        (fun r => r.1.getCell "out") = .ok (some 1) ∧
    (((⟨[("out", (0 : Rat)), ("in", 0)], [], []⟩ : Store Rat).register ["in"]
        "out" (fun g => (g "in").getD 0 + 1)).bind
          (fun r => r.1.set "in" 5)).map
        (fun p => p.1.getCell "out") = .ok (some 6) := by
  have h := register_immediate_then_reactive
    (⟨[("out", (0 : Rat)), ("in", 0)], [], []⟩ : Store Rat) ["in"] "out"
    (fun g => (g "in").getD 0 + 1) 0 rfl (by decide) rfl
  constructor
  · rw [h.1]
    simp [Store.getCell, lookupKey, List.find?]
  · rw [h.2 "in" 5 (by decide) (by decide)]
    simp [Store.getCell, lookupKey, writeCell, List.find?]
    norm_num
